import Mathlib

/-!
# Verification of `conda_forge_webservices/tokens.py`

A shallow embedding of the token-handling module of conda-forge-webservices.
Python byte strings are modelled as `List Nat` (byte values `< 256`), Python
`str` values whose code points matter are modelled as `List Nat` (Unicode
scalar values) and opaque token strings as Lean `String`.  Exceptions are
modelled with `Except PyError`; the process-wide mutable globals
(`APP_TOKEN`, `APP_TOKEN_RESET_TIME`, `FEEDSTOCK_TOKEN_RESET_TIMES`) become an
explicit `TokensState` threaded through the functions, and external network
calls are recorded in an explicit trace (`List ExtCall`) with their outcomes
supplied by environment records.
-/

/-- Python exception classes relevant to this module (all are subclasses of
`Exception`, which the blanket `except Exception` handlers catch). -/
inductive PyError where
  | assertionError
  | indexError
  | otherError
deriving DecidableEq, Repr

/-- The permission set / repository list of a
`POST /app/installations/{id}/access_tokens` request, as built by
`generate_app_token_for_feedstock` (tokens.py lines 343-354). -/
structure AccessTokenRequest where
  permissions : List (String × String)
  repositories : List String
deriving DecidableEq, Repr

/-- External (network / provider) calls the module makes, recorded as a trace
so that "without any network call" claims are expressible. -/
inductive ExtCall where
  | mintWebToken
  | mintFeedstockToken (repo : String)
  | accessTokenRequest (req : AccessTokenRequest)
  | rateQuery (token : String)
  | getRepo (fullName : String)
  | createSecret (fullName : String) (secretName : String) (value : String)
deriving DecidableEq, Repr

/-! ## Python dict / set equality on the small association lists we use -/

/-- Lookup in an association list modelling a Python dict. -/
def dictLookup (m : List (String × String)) (k : String) : Option String :=
  match m with
  | [] => none
  | (k', v) :: t => if k' = k then some v else dictLookup t k

/-- Python `dict.__eq__`: same keys with same values, order-insensitive
(association lists here never carry duplicate keys). -/
def dictEq (a b : List (String × String)) : Bool :=
  a.all (fun kv => dictLookup b kv.1 = some kv.2) &&
    b.all (fun kv => dictLookup a kv.1 = some kv.2)

/-- Python `set.__eq__` on sets built from lists of strings. -/
def setEqStr (a b : List String) : Bool :=
  a.all (fun x => x ∈ b) && b.all (fun x => x ∈ a)

/-! ## `str.split("/")` (tokens.py line 171) -/

/-- Python `s.split("/")`: split a string (as a char list) at every `'/'`.
Always returns at least one element. -/
def splitSlash : List Char → List (List Char)
  | [] => [[]]
  | c :: rest =>
    let r := splitSlash rest
    if c = '/' then [] :: r
    else
      match r with
      | h :: t => (c :: h) :: t
      | [] => [[c]]

/-! ## base64 (`base64.b64decode`, tokens.py lines 105 / 304)

Standard base64 with `=` padding, on byte lists.  `b64encode` is the
canonical encoder used to describe "valid base64 input" in the claims. -/

/-- The base64 alphabet: 6-bit value to ASCII byte. -/
def encode64 (n : Nat) : Nat :=
  if n < 26 then 65 + n
  else if n < 52 then 97 + (n - 26)
  else if n < 62 then 48 + (n - 52)
  else if n = 62 then 43
  else 47

/-- Inverse of the base64 alphabet: ASCII byte to 6-bit value, `none` for
bytes outside the alphabet (including the pad byte `=` = 61). -/
def decode64 (b : Nat) : Option Nat :=
  if 65 ≤ b ∧ b ≤ 90 then some (b - 65)
  else if 97 ≤ b ∧ b ≤ 122 then some (b - 97 + 26)
  else if 48 ≤ b ∧ b ≤ 57 then some (b - 48 + 52)
  else if b = 43 then some 62
  else if b = 47 then some 63
  else none

/-- Canonical base64 encoding of a byte list. -/
def b64encode : List Nat → List Nat
  | [] => []
  | [a] => [encode64 (a / 4), encode64 (a % 4 * 16), 61, 61]
  | [a, b] => [encode64 (a / 4), encode64 (a % 4 * 16 + b / 16),
               encode64 (b % 16 * 4), 61]
  | a :: b :: c :: rest =>
    encode64 (a / 4) :: encode64 (a % 4 * 16 + b / 16) ::
      encode64 (b % 16 * 4 + c / 64) :: encode64 (c % 64) :: b64encode rest

/-- base64 decoding (`base64.b64decode`); `none` models the
`binascii.Error` raised on malformed input. -/
def b64decode : List Nat → Option (List Nat)
  | [] => some []
  | c1 :: c2 :: c3 :: c4 :: rest =>
    match decode64 c1, decode64 c2 with
    | some d1, some d2 =>
      if c3 = 61 then
        if c4 = 61 ∧ rest = [] then some [d1 * 4 + d2 / 16] else none
      else
        match decode64 c3 with
        | some d3 =>
          if c4 = 61 then
            if rest = [] then some [d1 * 4 + d2 / 16, d2 % 16 * 16 + d3 / 4]
            else none
          else
            match decode64 c4 with
            | some d4 =>
              (b64decode rest).map
                (fun tl => (d1 * 4 + d2 / 16) :: (d2 % 16 * 16 + d3 / 4) ::
                  (d3 % 4 * 64 + d4) :: tl)
            | none => none
        | none => none
    | _, _ => none
  | _ => none

/-! ## UTF-8 (`bytes.decode()`, tokens.py lines 116 / 315)

Code points are `Nat`s; a Python `str` is a list of Unicode scalar values. -/

/-- A Unicode scalar value: what a Python `str` character holds and what
UTF-8 can encode (no surrogates). -/
def validScalar (c : Nat) : Prop :=
  c < 1114112 ∧ ¬(55296 ≤ c ∧ c < 57344)

instance (c : Nat) : Decidable (validScalar c) := by
  unfold validScalar; infer_instance

/-- UTF-8 encoding of a single scalar value. -/
def utf8EncodeChar (c : Nat) : List Nat :=
  if c < 128 then [c]
  else if c < 2048 then [192 + c / 64, 128 + c % 64]
  else if c < 65536 then [224 + c / 4096, 128 + c / 64 % 64, 128 + c % 64]
  else [240 + c / 262144, 128 + c / 4096 % 64, 128 + c / 64 % 64, 128 + c % 64]

/-- UTF-8 encoding of a sequence of scalar values (`str.encode()`). -/
def utf8EncodeCp : List Nat → List Nat
  | [] => []
  | c :: t => utf8EncodeChar c ++ utf8EncodeCp t

/-- Decode the tail of a two-byte UTF-8 sequence with lead byte `b`. -/
def utf8Tail2 (b : Nat) : List Nat → Option (Nat × List Nat)
  | b1 :: rest2 =>
    if 128 ≤ b1 ∧ b1 < 192 then some ((b - 192) * 64 + (b1 - 128), rest2)
    else none
  | [] => none

/-- Decode the tail of a three-byte UTF-8 sequence with lead byte `b`,
rejecting overlong encodings and surrogates. -/
def utf8Tail3 (b : Nat) : List Nat → Option (Nat × List Nat)
  | b1 :: b2 :: rest2 =>
    if (128 ≤ b1 ∧ b1 < 192) ∧ (128 ≤ b2 ∧ b2 < 192) then
      let n := (b - 224) * 4096 + (b1 - 128) * 64 + (b2 - 128)
      if 2048 ≤ n ∧ ¬(55296 ≤ n ∧ n < 57344) then some (n, rest2) else none
    else none
  | _ => none

/-- Decode the tail of a four-byte UTF-8 sequence with lead byte `b`,
rejecting overlong encodings and values beyond U+10FFFF. -/
def utf8Tail4 (b : Nat) : List Nat → Option (Nat × List Nat)
  | b1 :: b2 :: b3 :: rest2 =>
    if (128 ≤ b1 ∧ b1 < 192) ∧ (128 ≤ b2 ∧ b2 < 192) ∧ (128 ≤ b3 ∧ b3 < 192)
    then
      let n := (b - 240) * 262144 + (b1 - 128) * 4096 + (b2 - 128) * 64 +
        (b3 - 128)
      if 65536 ≤ n ∧ n < 1114112 then some (n, rest2) else none
    else none
  | _ => none

/-- Decode one UTF-8 scalar value from the front of a byte list, returning it
with the remaining bytes; `none` on malformed input (or empty input). -/
def utf8DecodeOne : List Nat → Option (Nat × List Nat)
  | [] => none
  | b :: rest =>
    if b < 128 then some (b, rest)
    else if b < 194 then none
    else if b < 224 then utf8Tail2 b rest
    else if b < 240 then utf8Tail3 b rest
    else if b < 245 then utf8Tail4 b rest
    else none

/-- Fuel-driven UTF-8 decoding loop; each step consumes at least one byte, so
fuel equal to the byte count always suffices. -/
def utf8DecodeLoop : Nat → List Nat → Option (List Nat)
  | _, [] => some []
  | 0, _ :: _ => none
  | fuel + 1, b :: rest =>
    match utf8DecodeOne (b :: rest) with
    | none => none
    | some (c, rest2) => (utf8DecodeLoop fuel rest2).map (fun l => c :: l)

/-- UTF-8 decoding of a byte list into scalar values (`bytes.decode()`);
`none` models the `UnicodeDecodeError` raised on malformed input. -/
def utf8DecodeCp (l : List Nat) : Option (List Nat) :=
  utf8DecodeLoop l.length l

/-! ## PEM normalization (tokens.py lines 101-116 and 300-315)

```
if raw_pem[0:1] != b"-":
    raw_pem = base64.b64decode(raw_pem)
if isinstance(raw_pem, bytes):
    raw_pem = raw_pem.decode()
```
The input is always `bytes`, so after the optional base64 step the value is
still `bytes` and the UTF-8 decode always runs.  `none` models a raised
decode exception (caught by the enclosing `try`). -/
def pemNormalize (raw : List Nat) : Option (List Nat) :=
  match (if raw.take 1 = [45] then some raw else b64decode raw) with
  | none => none
  | some bs => utf8DecodeCp bs

/-! ## Token minting (tokens.py lines 78-153 and 273-383)

The external GitHub API is abstracted by environment records whose fields
give the outcome of each call: `none` / a `Fails` flag set means that call
raised an exception.  Each `generate_*` function is a `try` body wrapped in
`except Exception`, so we first define the body (returning
`Except PyError _`) and then the wrapper (returning `Option _`, where `none`
is Python `None`). -/

/-- The mint response object (`InstallationAuthorization`): the fields of the
scoped token response that `generate_app_token_for_feedstock` inspects. -/
structure TokenResponse where
  token : String
  permissions : List (String × String)
  repository_selection : String
  repositories : List String

/-- Outcomes of the external calls made by
`generate_app_token_for_webservices_only` (tokens.py lines 78-153). -/
structure WebMintEnv where
  authFails : Bool
  integrationFails : Bool
  orgInstallation : Option Nat
  accessToken : Option String

/-- Outcomes of the external calls made by
`generate_app_token_for_feedstock` (tokens.py lines 273-383); `tokenResp`
is the provider's response as a function of the request body. -/
structure FeedstockMintEnv where
  authFails : Bool
  integrationFails : Bool
  repoInstallation : Option Nat
  tokenResp : AccessTokenRequest → Option TokenResponse

/-- The `try` body of `generate_app_token_for_webservices_only`
(tokens.py lines 101-148): normalize the PEM, authenticate, resolve the
org installation of "conda-forge", request an (unscoped) access token. -/
def web_mint_body (env : WebMintEnv) (raw_pem : List Nat) :
    Except PyError String :=
  match pemNormalize raw_pem with
  | none => .error .otherError
  | some _pem =>
    if env.authFails then .error .otherError
    else if env.integrationFails then .error .otherError
    else
      match env.orgInstallation with
      | none => .error .otherError
      | some _instId =>
        match env.accessToken with
        | none => .error .otherError
        | some t => .ok t

/-- `generate_app_token_for_feedstock` requests exactly these permissions
(tokens.py lines 345-352) and asserts the grant equals them
(lines 356-363). -/
def requestedPermissions : List (String × String) :=
  [("contents", "write"), ("metadata", "read"), ("workflows", "write"),
   ("checks", "read"), ("pull_requests", "write"), ("statuses", "read")]

/-- The access-token request built by `generate_app_token_for_feedstock`
(tokens.py lines 343-354): the hardcoded permission set and the
single-element repository list. -/
def feedstockTokenRequest (repo : String) : AccessTokenRequest :=
  { permissions := requestedPermissions, repositories := [repo] }

/-- The `try` body of `generate_app_token_for_feedstock`
(tokens.py lines 300-377): normalize the PEM, authenticate, resolve the
(org, repo) installation, request a scoped token, then run the three scope
assertions (lines 356-370) before extracting the token string.  A failed
`assert` raises `AssertionError`. -/
def feedstock_mint_body (env : FeedstockMintEnv) (raw_pem : List Nat)
    (repo : String) : Except PyError String × List ExtCall :=
  match pemNormalize raw_pem with
  | none => (.error .otherError, [])
  | some _pem =>
    if env.authFails then (.error .otherError, [])
    else if env.integrationFails then (.error .otherError, [])
    else
      match env.repoInstallation with
      | none => (.error .otherError, [])
      | some _instId =>
        let req := feedstockTokenRequest repo
        match env.tokenResp req with
        | none => (.error .otherError, [.accessTokenRequest req])
        | some d =>
          if ¬ dictEq d.permissions requestedPermissions then
            (.error .assertionError, [.accessTokenRequest req])
          else if d.repository_selection ≠ "selected" then
            (.error .assertionError, [.accessTokenRequest req])
          else if ¬ setEqStr d.repositories [repo] then
            (.error .assertionError, [.accessTokenRequest req])
          else (.ok d.token, [.accessTokenRequest req])

/-- `generate_app_token_for_webservices_only` (tokens.py lines 78-153):
the `try` body with `except Exception: gh_token = None`. -/
def generate_app_token_for_webservices_only (env : WebMintEnv)
    (raw_pem : List Nat) : Option String :=
  match web_mint_body env raw_pem with
  | .ok t => some t
  | .error _ => none

/-- `generate_app_token_for_feedstock` (tokens.py lines 273-383):
the `try` body with `except Exception as e: gh_token = None` — note the
blanket handler also catches the scope-verifier `AssertionError`s. -/
def generate_app_token_for_feedstock (env : FeedstockMintEnv)
    (raw_pem : List Nat) (repo : String) : Option String × List ExtCall :=
  match feedstock_mint_body env raw_pem repo with
  | (.ok t, calls) => (some t, calls)
  | (.error _, calls) => (none, calls)

/-! ## The process-wide cache (tokens.py lines 21-22, 25-75, 156-236) -/

/-- The module-level mutable globals: `APP_TOKEN_RESET_TIME`, `APP_TOKEN`
(both for the app-wide token) and `FEEDSTOCK_TOKEN_RESET_TIMES` (per-repo,
keyed by repository short name). `app_token = none` covers both Python
`None` and the initially-unset `APP_TOKEN`. -/
structure TokensState where
  app_token_reset_time : Option Nat
  app_token : Option String
  feedstock_token_reset_times : List (String × Nat)
deriving DecidableEq, Repr

/-- Python dict assignment `m[k] = v`: replace the binding if present,
otherwise append it. -/
def setReset : List (String × Nat) → String → Nat → List (String × Nat)
  | [], k, v => [(k, v)]
  | (k', v') :: t, k, v =>
    if k' = k then (k, v) :: t else (k', v') :: setReset t k v

/-- Environment for `get_app_token_for_webservices_only`: the mint
environment plus the private key from the process environment and the
outcome of `Github(token).rate_limiting_resettime` as a function of the
token (`none` = that query raised). -/
structure AppEnv where
  mintEnv : WebMintEnv
  raw_pem : List Nat
  rateQuery : String → Option Nat

/-- `get_app_token_for_webservices_only` (tokens.py lines 25-75).
Returns the result (`.error .assertionError` models the final
`assert APP_TOKEN is not None` failing), the new global state and the trace
of external calls made. -/
def get_app_token_for_webservices_only (env : AppEnv) (st : TokensState)
    (now : Nat) : Except PyError String × TokensState × List ExtCall :=
  let stale :=
    match st.app_token_reset_time with
    | none => true
    | some rt => rt ≤ now + 60
  if stale then
    let minted := generate_app_token_for_webservices_only env.mintEnv env.raw_pem
    let step : Option String × TokensState × List ExtCall :=
      match minted with
      | some t =>
        match env.rateQuery t with
        | some rt =>
          (some t, { st with app_token_reset_time := some rt },
            [.mintWebToken, .rateQuery t])
        | none => (none, st, [.mintWebToken, .rateQuery t])
      | none => (none, st, [.mintWebToken])
    match step with
    | (token, st1, calls) =>
      let st2 := { st1 with app_token := token }
      match token with
      | some t => (.ok t, st2, calls)
      | none => (.error .assertionError, st2, calls)
  else
    match st.app_token with
    | some t => (.ok t, st, [])
    | none => (.error .assertionError, st, [])

/-- The allow-list gate of `inject_app_token_into_feedstock`
(tokens.py lines 174-177). -/
def allowList : List String :=
  ["cf-autotick-bot-test-package-feedstock", "conda-forge-pinning-feedstock"]

/-- Environment for `inject_app_token_into_feedstock`: the app-wide token
environment (also supplying `raw_pem` and the rate-limit query used at
tokens.py line 199), the feedstock mint environment, and whether
`gh.get_repo` / `repo.create_secret` raise. -/
structure InjectEnv where
  appEnv : AppEnv
  fsMintEnv : FeedstockMintEnv
  getRepoFails : Bool
  createSecretFails : Bool

/-- `inject_app_token_into_feedstock` (tokens.py lines 156-236).
`repoProvided` models whether the optional `repo` argument was passed.
Result `.error e` models an uncaught exception escaping the function
(`IndexError` from `full_name.split("/")[1]`, an `AssertionError` from
`get_app_token_for_webservices_only`, or a `gh.get_repo` failure). -/
def inject_app_token_into_feedstock (env : InjectEnv) (st : TokensState)
    (now : Nat) (full_name : String) (repoProvided : Bool) :
    Except PyError Bool × TokensState × List ExtCall :=
  match (splitSlash full_name.data).get? 1 with
  | none => (.error .indexError, st, [])
  | some rn =>
    let repo_name : String := ⟨rn⟩
    if repo_name ∉ allowList then (.ok false, st, [])
    else if ¬ ("-feedstock".data.isSuffixOf rn) then (.ok false, st, [])
    else
      let stale :=
        (List.lookup repo_name st.feedstock_token_reset_times).getD
          (now + 30 * 60) ≤ now + 30 * 60
      if stale then
        match generate_app_token_for_feedstock env.fsMintEnv
            env.appEnv.raw_pem repo_name with
        | (none, mcalls) =>
          (.ok false, st, .mintFeedstockToken repo_name :: mcalls)
        | (some token, mcalls) =>
          let calls0 := .mintFeedstockToken repo_name :: mcalls
          let afterRepo : Except PyError Unit × TokensState × List ExtCall :=
            if repoProvided then (.ok (), st, calls0)
            else
              match get_app_token_for_webservices_only env.appEnv st now with
              | (.error e, st1, c1) => (.error e, st1, calls0 ++ c1)
              | (.ok _appTok, st1, c1) =>
                if env.getRepoFails then
                  (.error .otherError, st1,
                    calls0 ++ c1 ++ [.getRepo full_name])
                else (.ok (), st1, calls0 ++ c1 ++ [.getRepo full_name])
          match afterRepo with
          | (.error e, st1, cs) => (.error e, st1, cs)
          | (.ok _, st1, cs) =>
            let cs2 := cs ++
              [.createSecret full_name "RERENDERING_GITHUB_TOKEN" token]
            if env.createSecretFails then (.ok false, st1, cs2)
            else
              match env.appEnv.rateQuery token with
              | none => (.ok false, st1, cs2 ++ [.rateQuery token])
              | some rt =>
                (.ok true,
                  { st1 with feedstock_token_reset_times :=
                      setReset st1.feedstock_token_reset_times repo_name rt },
                  cs2 ++ [.rateQuery token])
      else (.ok true, st, [])

/-! ## Concrete example environments and states (used in witnesses) -/

/-- A scoped-mint response in which every scope check passes for
`"conda-forge-pinning-feedstock"`. -/
def respGood : TokenResponse :=
  { token := "tok"
    permissions := requestedPermissions
    repository_selection := "selected"
    repositories := ["conda-forge-pinning-feedstock"] }

/-- A feedstock mint environment in which every step succeeds. -/
def fsEnvGood : FeedstockMintEnv :=
  { authFails := false
    integrationFails := false
    repoInstallation := some 7
    tokenResp := fun _ => some respGood }

/-- A feedstock mint environment whose provider grants drifted (too-narrow)
permissions: the scope verifier's first assertion fails. -/
def fsEnvDrifted : FeedstockMintEnv :=
  { authFails := false
    integrationFails := false
    repoInstallation := some 7
    tokenResp := fun _ => some
      { token := "overtok"
        permissions := [("contents", "read")]
        repository_selection := "selected"
        repositories := ["conda-forge-pinning-feedstock"] } }

/-- A feedstock mint environment in which authentication raises. -/
def fsEnvAuthFail : FeedstockMintEnv :=
  { authFails := true
    integrationFails := false
    repoInstallation := none
    tokenResp := fun _ => none }

/-- An app-wide environment in which every step succeeds. -/
def appEnvGood : AppEnv :=
  { mintEnv :=
      { authFails := false
        integrationFails := false
        orgInstallation := some 3
        accessToken := some "webtok" }
    raw_pem := [45]
    rateQuery := fun _ => some 999999 }

/-- An app-wide environment whose access-token call raises, so the mint
returns `None`. -/
def appEnvMintFail : AppEnv :=
  { mintEnv :=
      { authFails := false
        integrationFails := false
        orgInstallation := some 3
        accessToken := none }
    raw_pem := [45]
    rateQuery := fun _ => some 999999 }

/-- An injection environment in which everything succeeds. -/
def injEnvGood : InjectEnv :=
  { appEnv := appEnvGood
    fsMintEnv := fsEnvGood
    getRepoFails := false
    createSecretFails := false }

/-- An injection environment in which `repo.create_secret` raises. -/
def injEnvSecretFail : InjectEnv :=
  { appEnv := appEnvGood
    fsMintEnv := fsEnvGood
    getRepoFails := false
    createSecretFails := true }

/-- The initial module state: no cached tokens. -/
def stEmpty : TokensState :=
  { app_token_reset_time := none
    app_token := none
    feedstock_token_reset_times := [] }

/-- A state holding a previously cached (now stale) app token `"old"`. -/
def stOld : TokensState :=
  { app_token_reset_time := some 0
    app_token := some "old"
    feedstock_token_reset_times := [] }

/-- The code points of the PEM header `"-----BEGIN"` (`'-'` = 45). -/
def pemHeader : List Nat :=
  [45, 45, 45, 45, 45, 66, 69, 71, 73, 78]

/-! # Theorems -/

/-! ## Helper lemmas about the codecs -/

theorem decode64_encode64 : ∀ n, n < 64 → decode64 (encode64 n) = some n := by
  decide

theorem encode64_ne_61 : ∀ n, n < 64 → encode64 n ≠ 61 := by
  decide

theorem encode64_11 : encode64 11 = 76 := by decide

theorem isPrefixOf_exists {p s : List Nat} (h : p.isPrefixOf s = true) :
    ∃ t, s = p ++ t := by
  induction p generalizing s with
  | nil => exact ⟨s, rfl⟩
  | cons a as ih =>
    cases s with
    | nil => simp [List.isPrefixOf] at h
    | cons b bs =>
      simp only [List.isPrefixOf, Bool.and_eq_true, beq_iff_eq] at h
      obtain ⟨t, ht⟩ := ih h.2
      exact ⟨t, by simp [h.1, ht]⟩

theorem splitSlash_no_slash (l : List Char) (h : '/' ∉ l) :
    splitSlash l = [l] := by
  induction l with
  | nil => rfl
  | cons c rest ih =>
    have hc : c ≠ '/' := fun hc => h (by simp [hc])
    have hr : '/' ∉ rest := fun hr => h (by simp [hr])
    simp [splitSlash, hc, ih hr]

theorem b64decode_encode : ∀ l : List Nat, (∀ b ∈ l, b < 256) →
    b64decode (b64encode l) = some l := by
  intro l
  induction l using b64encode.induct with
  | case1 => intro _; rfl
  | case2 a =>
    intro h
    have ha : a < 256 := h a (by simp)
    have h1 := decode64_encode64 (a / 4) (by omega)
    have h2 := decode64_encode64 (a % 4 * 16) (by omega)
    simp [b64encode, b64decode, h1, h2]
    omega
  | case3 a b =>
    intro h
    have ha : a < 256 := h a (by simp)
    have hb : b < 256 := h b (by simp)
    have h1 := decode64_encode64 (a / 4) (by omega)
    have h2 := decode64_encode64 (a % 4 * 16 + b / 16) (by omega)
    have h3 := decode64_encode64 (b % 16 * 4) (by omega)
    have h3ne := encode64_ne_61 (b % 16 * 4) (by omega)
    simp [b64encode, b64decode, h1, h2, h3, h3ne]
    omega
  | case4 a b c rest ih =>
    intro h
    have ha : a < 256 := h a (by simp)
    have hb : b < 256 := h b (by simp)
    have hc : c < 256 := h c (by simp)
    have hrest : ∀ x ∈ rest, x < 256 := fun x hx => h x (by simp [hx])
    have h1 := decode64_encode64 (a / 4) (by omega)
    have h2 := decode64_encode64 (a % 4 * 16 + b / 16) (by omega)
    have h3 := decode64_encode64 (b % 16 * 4 + c / 64) (by omega)
    have h4 := decode64_encode64 (c % 64) (by omega)
    have h3ne := encode64_ne_61 (b % 16 * 4 + c / 64) (by omega)
    have h4ne := encode64_ne_61 (c % 64) (by omega)
    simp [b64encode, b64decode, h1, h2, h3, h4, h3ne, h4ne, ih hrest]
    omega

theorem utf8EncodeChar_bytes_lt (c : Nat) (hc : validScalar c) :
    ∀ b ∈ utf8EncodeChar c, b < 256 := by
  obtain ⟨hc1, _⟩ := hc
  intro b hb
  unfold utf8EncodeChar at hb
  split at hb
  · simp at hb; omega
  · split at hb
    · simp at hb; omega
    · split at hb
      · simp at hb; omega
      · simp at hb; omega

theorem utf8EncodeCp_bytes_lt (l : List Nat) (h : ∀ c ∈ l, validScalar c) :
    ∀ b ∈ utf8EncodeCp l, b < 256 := by
  induction l with
  | nil => intro b hb; simp [utf8EncodeCp] at hb
  | cons c t ih =>
    intro b hb
    simp only [utf8EncodeCp, List.mem_append] at hb
    rcases hb with hb | hb
    · exact utf8EncodeChar_bytes_lt c (h c (by simp)) b hb
    · exact ih (fun x hx => h x (by simp [hx])) b hb

set_option maxRecDepth 8000

/-- Decoding one scalar undoes encoding one scalar, for any trailing bytes. -/
theorem utf8DecodeOne_encodeChar (c : Nat) (hv : validScalar c)
    (rest : List Nat) :
    utf8DecodeOne (utf8EncodeChar c ++ rest) = some (c, rest) := by
  obtain ⟨hc1, hc2⟩ := hv
  by_cases h1 : c < 128
  · have he : utf8EncodeChar c = [c] := by simp [utf8EncodeChar, h1]
    rw [he, List.cons_append, List.nil_append, utf8DecodeOne, if_pos h1]
  · by_cases h2 : c < 2048
    · have he : utf8EncodeChar c = [192 + c / 64, 128 + c % 64] := by
        simp [utf8EncodeChar, h1, h2]
      rw [he]
      rw [List.cons_append, List.cons_append, List.nil_append]
      rw [utf8DecodeOne, if_neg (by omega), if_neg (by omega),
        if_pos (by omega)]
      rw [utf8Tail2, if_pos (by omega)]
      congr 2
      omega
    · by_cases h3 : c < 65536
      · have he : utf8EncodeChar c =
            [224 + c / 4096, 128 + c / 64 % 64, 128 + c % 64] := by
          simp [utf8EncodeChar, h1, h2, h3]
        rw [he]
        rw [List.cons_append, List.cons_append, List.cons_append,
          List.nil_append]
        rw [utf8DecodeOne, if_neg (by omega), if_neg (by omega),
          if_neg (by omega), if_pos (by omega)]
        rw [utf8Tail3, if_pos (by constructor <;> omega)]
        show (if 2048 ≤ (224 + c / 4096 - 224) * 4096 +
            (128 + c / 64 % 64 - 128) * 64 + (128 + c % 64 - 128) ∧
            ¬(55296 ≤ (224 + c / 4096 - 224) * 4096 +
              (128 + c / 64 % 64 - 128) * 64 + (128 + c % 64 - 128) ∧
              (224 + c / 4096 - 224) * 4096 +
              (128 + c / 64 % 64 - 128) * 64 + (128 + c % 64 - 128) < 57344)
          then some ((224 + c / 4096 - 224) * 4096 +
            (128 + c / 64 % 64 - 128) * 64 + (128 + c % 64 - 128), rest)
          else none) = some (c, rest)
        rw [if_pos (by constructor <;> omega)]
        congr 2
        omega
      · have he : utf8EncodeChar c =
            [240 + c / 262144, 128 + c / 4096 % 64, 128 + c / 64 % 64,
             128 + c % 64] := by
          simp [utf8EncodeChar, h1, h2, h3]
        rw [he]
        rw [List.cons_append, List.cons_append, List.cons_append,
          List.cons_append, List.nil_append]
        rw [utf8DecodeOne, if_neg (by omega), if_neg (by omega),
          if_neg (by omega), if_neg (by omega), if_pos (by omega)]
        rw [utf8Tail4, if_pos (by refine ⟨⟨by omega, by omega⟩,
          ⟨by omega, by omega⟩, by omega, by omega⟩)]
        show (if 65536 ≤ (240 + c / 262144 - 240) * 262144 +
            (128 + c / 4096 % 64 - 128) * 4096 + (128 + c / 64 % 64 - 128) * 64 +
            (128 + c % 64 - 128) ∧
            (240 + c / 262144 - 240) * 262144 +
            (128 + c / 4096 % 64 - 128) * 4096 + (128 + c / 64 % 64 - 128) * 64 +
            (128 + c % 64 - 128) < 1114112
          then some ((240 + c / 262144 - 240) * 262144 +
            (128 + c / 4096 % 64 - 128) * 4096 + (128 + c / 64 % 64 - 128) * 64 +
            (128 + c % 64 - 128), rest)
          else none) = some (c, rest)
        rw [if_pos (by constructor <;> omega)]
        congr 2
        omega

/-- Every scalar encodes to at least one byte, so a scalar list never encodes
to fewer bytes than it has scalars. -/
theorem length_le_utf8EncodeCp (l : List Nat) :
    l.length ≤ (utf8EncodeCp l).length := by
  induction l with
  | nil => simp [utf8EncodeCp]
  | cons c t ih =>
    have h1 : 1 ≤ (utf8EncodeChar c).length := by
      unfold utf8EncodeChar
      split
      · simp
      · split
        · simp
        · split <;> simp
    simp only [utf8EncodeCp, List.length_cons, List.length_append]
    omega

/-- The decoding loop undoes the encoder given fuel of at least one unit per
scalar. -/
theorem utf8DecodeLoop_encode (l : List Nat) : ∀ fuel : Nat,
    (∀ c ∈ l, validScalar c) → l.length ≤ fuel →
    utf8DecodeLoop fuel (utf8EncodeCp l) = some l := by
  induction l with
  | nil =>
    intro fuel _ _
    cases fuel <;> rfl
  | cons c t ih =>
    intro fuel h hlen
    have hc : validScalar c := h c (by simp)
    have henc := utf8DecodeOne_encodeChar c hc (utf8EncodeCp t)
    obtain ⟨f, rfl⟩ : ∃ f, fuel = f + 1 := by
      cases fuel with
      | zero => simp at hlen
      | succ f => exact ⟨f, rfl⟩
    have hne : ∃ b bs, utf8EncodeChar c ++ utf8EncodeCp t = b :: bs := by
      cases hl : utf8EncodeChar c ++ utf8EncodeCp t with
      | nil =>
        exfalso
        have := utf8DecodeOne_encodeChar c hc (utf8EncodeCp t)
        rw [hl] at this
        simp [utf8DecodeOne] at this
      | cons b bs => exact ⟨b, bs, rfl⟩
    obtain ⟨b, bs, hbs⟩ := hne
    show utf8DecodeLoop (f + 1) (utf8EncodeChar c ++ utf8EncodeCp t) = _
    rw [hbs, utf8DecodeLoop, ← hbs, henc]
    show Option.map (fun l => c :: l) (utf8DecodeLoop f (utf8EncodeCp t)) =
      some (c :: t)
    rw [ih f (fun x hx => h x (by simp [hx])) (by simp at hlen; omega)]
    rfl

/-- Round trip: UTF-8 decoding undoes UTF-8 encoding on valid scalar lists
(`s.encode().decode() == s`). -/
theorem utf8DecodeCp_encode (l : List Nat) (h : ∀ c ∈ l, validScalar c) :
    utf8DecodeCp (utf8EncodeCp l) = some l :=
  utf8DecodeLoop_encode l (utf8EncodeCp l).length h (length_le_utf8EncodeCp l)

/-- Normalizing a byte string that starts with the PEM marker byte `'-'`
skips the base64 step and goes straight to UTF-8 decoding. -/
theorem pemNormalize_cons45 (bs : List Nat) :
    pemNormalize (45 :: bs) = utf8DecodeCp (45 :: bs) := by
  unfold pemNormalize
  have hc : List.take 1 (45 :: bs) = [45] := rfl
  rw [if_pos hc]

/-- The base64 encoding of a byte string starting with `'-'` (45) starts with
`'L'` (76), in particular not with the PEM marker. -/
theorem b64encode_cons45_take (bs : List Nat) :
    (b64encode (45 :: bs)).take 1 = [76] := by
  cases bs with
  | nil => rfl
  | cons b t =>
    cases t with
    | nil => rfl
    | cons c r => rfl

/-- Encoding a scalar list that starts with `'-'` (45 < 128) produces a byte
list that starts with the same byte. -/
theorem utf8EncodeCp_cons45 (r : List Nat) :
    utf8EncodeCp (45 :: r) = 45 :: utf8EncodeCp r := rfl

/-! ## Claim C8 -/

/-- Claim C8 (confirmed): for all valid PEM-or-base64 inputs — a byte string
that is either the UTF-8 encoding of a PEM text `s` beginning with the PEM
header `"-----BEGIN"`, or the base64 encoding of that byte string — the PEM
normalization step of the mint functions (tokens.py lines 101-116 / 300-315:
base64-decode when the first byte is not `'-'`, then UTF-8 decode) succeeds
and produces exactly that string, the output begins with the PEM header, and
normalizing the already-normalized output (re-encoded as bytes) returns the
same string (idempotence). -/
theorem c8_pem_normalizer (s raw : List Nat)
    (hs : ∀ c ∈ s, validScalar c)
    (hh : pemHeader.isPrefixOf s = true)
    (hraw : raw = utf8EncodeCp s ∨ raw = b64encode (utf8EncodeCp s)) :
    ∃ out, pemNormalize raw = some out ∧ pemHeader.isPrefixOf out = true ∧
      pemNormalize (utf8EncodeCp out) = some out := by
  obtain ⟨t0, hs0⟩ := isPrefixOf_exists hh
  obtain ⟨r, hr⟩ : ∃ r, s = 45 :: r := ⟨_, by rw [hs0]; rfl⟩
  have henc : utf8EncodeCp s = 45 :: utf8EncodeCp r := by
    rw [hr, utf8EncodeCp_cons45]
  have hid : pemNormalize (utf8EncodeCp s) = some s := by
    rw [henc, pemNormalize_cons45, ← henc]
    exact utf8DecodeCp_encode s hs
  refine ⟨s, ?_, hh, hid⟩
  rcases hraw with hraw | hraw
  · rw [hraw]; exact hid
  · rw [hraw]
    have hne : ¬ (b64encode (utf8EncodeCp s)).take 1 = [45] := by
      rw [henc, b64encode_cons45_take]
      decide
    have hb64 : b64decode (b64encode (utf8EncodeCp s)) =
        some (utf8EncodeCp s) :=
      b64decode_encode (utf8EncodeCp s) (utf8EncodeCp_bytes_lt s hs)
    unfold pemNormalize
    rw [if_neg hne, hb64]
    show utf8DecodeCp (utf8EncodeCp s) = some s
    exact utf8DecodeCp_encode s hs

/-- Witness for C8: a concrete PEM text (`"-----BEGIN X"`) fed through both
accepted input forms. -/
theorem c8_pem_normalizer_witness :
    ∃ out, pemNormalize
        (b64encode (utf8EncodeCp [45, 45, 45, 45, 45, 66, 69, 71, 73, 78, 32, 88]))
        = some out ∧
      pemHeader.isPrefixOf out = true ∧
      pemNormalize (utf8EncodeCp out) = some out :=
  c8_pem_normalizer [45, 45, 45, 45, 45, 66, 69, 71, 73, 78, 32, 88] _
    (by decide) (by decide) (Or.inr rfl)

/-! ## Supporting lemmas about the mint bodies -/

/-- A successful scoped mint means the provider's response passed all three
scope assertions and the returned token string is the response's token. -/
theorem feedstock_mint_body_ok (env : FeedstockMintEnv) (raw : List Nat)
    (repo t : String) (calls : List ExtCall)
    (h : feedstock_mint_body env raw repo = (.ok t, calls)) :
    ∃ d, env.tokenResp (feedstockTokenRequest repo) = some d ∧
      dictEq d.permissions requestedPermissions = true ∧
      d.repository_selection = "selected" ∧
      setEqStr d.repositories [repo] = true ∧
      t = d.token := by
  unfold feedstock_mint_body at h
  split at h
  · simp at h
  · split at h
    · simp at h
    · split at h
      · simp at h
      · split at h
        · simp at h
        · simp only [ne_eq] at h
          split at h
          · simp at h
          · next d hd =>
            split at h
            · simp at h
            · split at h
              · simp at h
              · split at h
                · simp at h
                · simp only [Prod.mk.injEq] at h
                  refine ⟨d, hd, ?_, ?_, ?_, ?_⟩
                  · simp_all
                  · simp_all
                  · simp_all
                  · simp_all

/-- Every access-token request the scoped mint body sends is the hardcoded
narrow request for the given repository. -/
theorem feedstock_mint_body_requests (env : FeedstockMintEnv) (raw : List Nat)
    (repo : String) (req : AccessTokenRequest)
    (hm : ExtCall.accessTokenRequest req ∈ (feedstock_mint_body env raw repo).2) :
    req = feedstockTokenRequest repo := by
  unfold feedstock_mint_body at hm
  split at hm
  · simp at hm
  · split at hm
    · simp at hm
    · split at hm
      · simp at hm
      · split at hm
        · simp at hm
        · simp only [ne_eq] at hm
          split at hm
          · simp at hm
            exact hm
          · split at hm
            · simp at hm
              exact hm
            · split at hm
              · simp at hm
                exact hm
              · split at hm
                · simp at hm
                  exact hm
                · simp at hm
                  exact hm

/-- The wrapper's trace is the body's trace. -/
theorem generate_app_token_for_feedstock_trace (env : FeedstockMintEnv)
    (raw : List Nat) (repo : String) :
    (generate_app_token_for_feedstock env raw repo).2 =
      (feedstock_mint_body env raw repo).2 := by
  unfold generate_app_token_for_feedstock
  cases hfb : feedstock_mint_body env raw repo with
  | mk res calls => cases res <;> rfl

/-! ## Claim C1 -/

/-- Counterexample to claim C1 as stated: a concrete mint response with
drifted (too-narrow) permissions makes the scope-verifier assertion raise
`AssertionError` inside the `try` body, yet
`generate_app_token_for_feedstock` returns `None` — the assertion failure is
caught by the blanket `except Exception` handler (tokens.py line 379), not
propagated out of the function. -/
theorem c1_counterexample :
    (feedstock_mint_body fsEnvDrifted [45] "conda-forge-pinning-feedstock").1 =
      .error .assertionError ∧
    (generate_app_token_for_feedstock fsEnvDrifted [45]
      "conda-forge-pinning-feedstock").1 = none := by
  constructor
  · rfl
  · rfl

/-- Claim C1 (amended): when a repo-scoped mint result deviates from the
request, the Scope Verifier's assertion failure is raised inside the `try`
block but is caught by the `except Exception` handler of
`generate_app_token_for_feedstock`, which converts it into a `None` return
(with a critical log); it does not propagate to the caller. -/
theorem c1_assertion_caught (env : FeedstockMintEnv) (raw : List Nat)
    (repo : String)
    (h : (feedstock_mint_body env raw repo).1 = .error .assertionError) :
    (generate_app_token_for_feedstock env raw repo).1 = none := by
  unfold generate_app_token_for_feedstock
  cases hfb : feedstock_mint_body env raw repo with
  | mk res calls =>
    cases res with
    | ok t => rw [hfb] at h; simp at h
    | error e => rfl

/-- Witness for the amended C1 at the drifted-permissions environment. -/
theorem c1_assertion_caught_witness :
    (generate_app_token_for_feedstock fsEnvDrifted [45]
      "conda-forge-pinning-feedstock").1 = none :=
  c1_assertion_caught fsEnvDrifted [45] "conda-forge-pinning-feedstock" rfl

/-! ## Claim C5 -/

/-- Claim C5 (confirmed): every repo-scoped access-token request issued by
`generate_app_token_for_feedstock` carries exactly the hardcoded permission
set `contents: write, metadata: read, workflows: write, checks: read,
pull_requests: write, statuses: read` and exactly the single-element
repository list naming the requested repository (tokens.py lines 343-354). -/
theorem c5_request_scope (env : FeedstockMintEnv) (raw : List Nat)
    (repo : String) (req : AccessTokenRequest)
    (hm : ExtCall.accessTokenRequest req ∈
      (generate_app_token_for_feedstock env raw repo).2) :
    req.permissions =
      [("contents", "write"), ("metadata", "read"), ("workflows", "write"),
       ("checks", "read"), ("pull_requests", "write"), ("statuses", "read")] ∧
    req.repositories = [repo] := by
  rw [generate_app_token_for_feedstock_trace] at hm
  have hr := feedstock_mint_body_requests env raw repo req hm
  subst hr
  exact ⟨rfl, rfl⟩

/-- Witness for C5: the successful environment actually issues a request. -/
theorem c5_request_scope_witness :
    (feedstockTokenRequest "conda-forge-pinning-feedstock").permissions =
      [("contents", "write"), ("metadata", "read"), ("workflows", "write"),
       ("checks", "read"), ("pull_requests", "write"), ("statuses", "read")] ∧
    (feedstockTokenRequest "conda-forge-pinning-feedstock").repositories =
      ["conda-forge-pinning-feedstock"] :=
  c5_request_scope fsEnvGood [45] "conda-forge-pinning-feedstock"
    (feedstockTokenRequest "conda-forge-pinning-feedstock") (by decide)

/-! ## Claim C7 -/

/-- Claim C7 (confirmed): in either mint function, an exception anywhere in
the pipeline (PEM decode, authentication, installation lookup, token
request, or — for the scoped variant — a scope assertion) is caught inside
the function, which returns `None`; no exception escapes to the caller
(tokens.py lines 150-153 and 379-383). -/
theorem c7_exceptions_caught (wenv : WebMintEnv) (fenv : FeedstockMintEnv)
    (rawW rawF : List Nat) (repo : String) (e1 e2 : PyError)
    (h1 : web_mint_body wenv rawW = .error e1)
    (h2 : (feedstock_mint_body fenv rawF repo).1 = .error e2) :
    generate_app_token_for_webservices_only wenv rawW = none ∧
      (generate_app_token_for_feedstock fenv rawF repo).1 = none := by
  constructor
  · unfold generate_app_token_for_webservices_only
    rw [h1]
  · unfold generate_app_token_for_feedstock
    cases hfb : feedstock_mint_body fenv rawF repo with
    | mk res calls =>
      cases res with
      | ok t => rw [hfb] at h2; simp at h2
      | error e => rfl

/-- Witness for C7: concrete failing environments for both mint functions. -/
theorem c7_exceptions_caught_witness :
    generate_app_token_for_webservices_only appEnvMintFail.mintEnv [45] = none ∧
      (generate_app_token_for_feedstock fsEnvAuthFail [45]
        "conda-forge-pinning-feedstock").1 = none :=
  c7_exceptions_caught appEnvMintFail.mintEnv fsEnvAuthFail [45] [45]
    "conda-forge-pinning-feedstock" .otherError .otherError rfl rfl

/-! ## Claim C9 -/

/-- Claim C9 (confirmed): `generate_app_token_for_feedstock` never returns a
token string from a mint response failing any of the three scope checks; a
returned token always comes from a response whose granted permissions equal
the request, whose `repository_selection` is `"selected"`, and whose
repository set is exactly the requested repository, so an over-scoped
credential is never served (tokens.py lines 356-372). -/
theorem c9_no_overscoped_token (env : FeedstockMintEnv) (raw : List Nat)
    (repo t : String)
    (h : (generate_app_token_for_feedstock env raw repo).1 = some t) :
    ∃ d, env.tokenResp (feedstockTokenRequest repo) = some d ∧
      dictEq d.permissions requestedPermissions = true ∧
      d.repository_selection = "selected" ∧
      setEqStr d.repositories [repo] = true ∧
      t = d.token := by
  unfold generate_app_token_for_feedstock at h
  cases hfb : feedstock_mint_body env raw repo with
  | mk res calls =>
    rw [hfb] at h
    cases res with
    | ok t' =>
      simp only at h
      injection h with h
      subst h
      exact feedstock_mint_body_ok env raw repo t' calls hfb
    | error e => simp at h

/-- Witness for C9 at the fully successful environment. -/
theorem c9_no_overscoped_token_witness :
    ∃ d, fsEnvGood.tokenResp
        (feedstockTokenRequest "conda-forge-pinning-feedstock") = some d ∧
      dictEq d.permissions requestedPermissions = true ∧
      d.repository_selection = "selected" ∧
      setEqStr d.repositories ["conda-forge-pinning-feedstock"] = true ∧
      "tok" = d.token :=
  c9_no_overscoped_token fsEnvGood [45] "conda-forge-pinning-feedstock" "tok"
    rfl

/-! ## Claim C3 -/

/-- Counterexample to claim C3 as stated: with a previously cached token
`"old"` and a stale reset time, a failed mint does NOT keep the cached token
and return it — `APP_TOKEN = token` (tokens.py line 63) overwrites the cache
with `None` and the final `assert APP_TOKEN is not None` (line 73) fails,
even though a token had been available. -/
theorem c3_counterexample :
    (get_app_token_for_webservices_only appEnvMintFail stOld 1000).1 =
      .error .assertionError ∧
    (get_app_token_for_webservices_only appEnvMintFail stOld 1000).2.1.app_token
      = none ∧
    stOld.app_token = some "old" :=
  ⟨rfl, rfl, rfl⟩

/-- Claim C3 (amended): when `get_app_token_for_webservices_only` enters the
re-mint path and the mint attempt fails (the mint returns `None`, or the
reset-time query raises), the cached token is overwritten with `None` and the
call fails the final assertion — it does not keep the previous cached token
and does not return a token, even when one was previously cached. -/
theorem c3_mint_failure_clobbers_cache (env : AppEnv) (st : TokensState)
    (now : Nat)
    (hstale : st.app_token_reset_time = none ∨
      ∃ rt, st.app_token_reset_time = some rt ∧ rt ≤ now + 60)
    (hfail : generate_app_token_for_webservices_only env.mintEnv env.raw_pem
        = none ∨
      ∃ t, generate_app_token_for_webservices_only env.mintEnv env.raw_pem
          = some t ∧ env.rateQuery t = none) :
    (get_app_token_for_webservices_only env st now).1 =
      .error .assertionError ∧
    (get_app_token_for_webservices_only env st now).2.1.app_token = none := by
  unfold get_app_token_for_webservices_only
  have hs : (match st.app_token_reset_time with
      | none => true
      | some rt => decide (rt ≤ now + 60)) = true := by
    rcases hstale with h | ⟨rt, h1, h2⟩
    · rw [h]
    · rw [h1]; simpa using h2
  rw [hs]
  rcases hfail with hf | ⟨t, ht, hq⟩
  · simp [hf]
  · simp [ht, hq]

/-- Witness for the amended C3 at the failing-mint environment with a
previously cached token. -/
theorem c3_mint_failure_clobbers_cache_witness :
    (stOld.app_token_reset_time = none ∨
      ∃ rt, stOld.app_token_reset_time = some rt ∧ rt ≤ 1000 + 60) ∧
    (generate_app_token_for_webservices_only appEnvMintFail.mintEnv
        appEnvMintFail.raw_pem = none) ∧
    (get_app_token_for_webservices_only appEnvMintFail stOld 1000).1 =
      .error .assertionError ∧
    (get_app_token_for_webservices_only appEnvMintFail stOld 1000).2.1.app_token
      = none := by
  refine ⟨Or.inr ⟨0, rfl, by omega⟩, rfl, ?_⟩
  exact c3_mint_failure_clobbers_cache appEnvMintFail stOld 1000
    (Or.inr ⟨0, rfl, by omega⟩) (Or.inl rfl)

/-! ## Claim C10 -/

/-- Claim C10 (confirmed): `inject_app_token_into_feedstock` requires its
`full_name` argument to contain a `"/"`: without one,
`full_name.split("/")[1]` (tokens.py line 171) raises an uncaught
`IndexError` before any gate check, and the function does not return a
boolean — the documented boolean contract holds only under that
precondition. -/
theorem c10_slash_required (env : InjectEnv) (st : TokensState) (now : Nat)
    (full_name : String) (repoProvided : Bool)
    (h : '/' ∉ full_name.data) :
    inject_app_token_into_feedstock env st now full_name repoProvided =
      (.error .indexError, st, []) := by
  have hs : splitSlash full_name.data = [full_name.data] :=
    splitSlash_no_slash _ h
  have h1 : (splitSlash full_name.data).get? 1 = none := by rw [hs]; rfl
  simp only [inject_app_token_into_feedstock, h1]

/-- Witness for C10 at the slash-free repository name `"conda-forge"`. -/
theorem c10_slash_required_witness :
    inject_app_token_into_feedstock injEnvGood stEmpty 1000 "conda-forge"
      false = (.error .indexError, stEmpty, []) :=
  c10_slash_required injEnvGood stEmpty 1000 "conda-forge" false (by decide)

/-! ## Claim C4 -/

/-- Claim C4 (confirmed): for every full repository name whose short name is
not in the fixed allow-list `{"cf-autotick-bot-test-package-feedstock",
"conda-forge-pinning-feedstock"}` or does not end with `"-feedstock"`,
`inject_app_token_into_feedstock` returns `False` immediately with no
external call and no modification of either cache (tokens.py
lines 171-181). -/
theorem c4_allowlist_gate (env : InjectEnv) (st : TokensState) (now : Nat)
    (full_name : String) (repoProvided : Bool) (rn : List Char)
    (h1 : (splitSlash full_name.data).get? 1 = some rn)
    (h2 : (⟨rn⟩ : String) ∉ allowList ∨
      "-feedstock".data.isSuffixOf rn = false) :
    inject_app_token_into_feedstock env st now full_name repoProvided =
      (.ok false, st, []) := by
  simp only [inject_app_token_into_feedstock, h1]
  rcases h2 with h2 | h2
  · rw [if_pos h2]
  · by_cases hmem : (⟨rn⟩ : String) ∉ allowList
    · rw [if_pos hmem]
    · rw [if_neg hmem, if_pos (by simp [h2])]

/-- Witness for C4 at `"conda-forge/randomlib"` (not in the allow-list) and
`"conda-forge/foo"` (wrong suffix). -/
theorem c4_allowlist_gate_witness :
    inject_app_token_into_feedstock injEnvGood stEmpty 1000
      "conda-forge/randomlib" false = (.ok false, stEmpty, []) ∧
    inject_app_token_into_feedstock injEnvGood stEmpty 1000
      "conda-forge/foo" false = (.ok false, stEmpty, []) :=
  ⟨c4_allowlist_gate injEnvGood stEmpty 1000 "conda-forge/randomlib" false
      "randomlib".data (by decide) (Or.inl (by decide)),
   c4_allowlist_gate injEnvGood stEmpty 1000 "conda-forge/foo" false
      "foo".data (by decide) (Or.inl (by decide))⟩

/-! ## Claim C2 -/

/-- When the gate passes and the per-repo cache entry is absent or within the
30-minute margin, `inject_app_token_into_feedstock` performs a scoped mint
(the refresh path). -/
theorem inject_stale_mints (env : InjectEnv) (st : TokensState) (now : Nat)
    (full_name : String) (repoProvided : Bool) (rn : List Char)
    (h1 : (splitSlash full_name.data).get? 1 = some rn)
    (h2 : (⟨rn⟩ : String) ∈ allowList)
    (h3 : "-feedstock".data.isSuffixOf rn = true)
    (h4 : (List.lookup (⟨rn⟩ : String) st.feedstock_token_reset_times).getD
      (now + 30 * 60) ≤ now + 30 * 60) :
    ExtCall.mintFeedstockToken (⟨rn⟩ : String) ∈
      (inject_app_token_into_feedstock env st now full_name repoProvided).2.2 := by
  simp only [inject_app_token_into_feedstock, h1]
  rw [if_neg (by simp [h2]), if_neg (by simp [h3]), if_pos h4]
  split
  · simp
  · split
    · next heq =>
      split at heq
      · simp at heq
      · split at heq
        · simp only [Prod.mk.injEq] at heq
          obtain ⟨-, -, hcs⟩ := heq
          simp [← hcs]
        · split at heq
          · simp only [Prod.mk.injEq] at heq
            obtain ⟨-, -, hcs⟩ := heq
            simp [← hcs]
          · simp at heq
    · next a st1 cs heq =>
      have hcs : ∃ x, cs = ExtCall.mintFeedstockToken (⟨rn⟩ : String) :: x := by
        split at heq
        · simp only [Prod.mk.injEq] at heq
          exact ⟨_, heq.2.2.symm⟩
        · split at heq
          · simp at heq
          · split at heq
            · simp at heq
            · simp only [Prod.mk.injEq] at heq
              exact ⟨_, heq.2.2.symm⟩
      obtain ⟨x, hx⟩ := hcs
      split
      · simp [hx]
      · split
        · simp [hx]
        · simp [hx]

/-- The app-wide cache serves without minting exactly when a cached reset
time exists strictly beyond `now + 60`. -/
theorem app_cache_margin_iff (env : AppEnv) (st : TokensState) (now : Nat) :
    ExtCall.mintWebToken ∈
        (get_app_token_for_webservices_only env st now).2.2 ↔
      ¬ ∃ rt, st.app_token_reset_time = some rt ∧ now + 60 < rt := by
  unfold get_app_token_for_webservices_only
  cases hrt : st.app_token_reset_time with
  | none =>
    simp only
    constructor
    · rintro - ⟨rt, hc, -⟩
      simp at hc
    · intro _
      cases hm : generate_app_token_for_webservices_only env.mintEnv
          env.raw_pem with
      | none => simp [hm]
      | some t => cases hq : env.rateQuery t <;> simp [hm, hq]
  | some rt =>
    simp only
    by_cases hle : rt ≤ now + 60
    · rw [show (decide (rt ≤ now + 60)) = true by simpa using hle]
      constructor
      · rintro - ⟨rt', hc, hgt⟩
        simp only [Option.some.injEq] at hc
        omega
      · intro _
        cases hm : generate_app_token_for_webservices_only env.mintEnv
            env.raw_pem with
        | none => simp [hm]
        | some t => cases hq : env.rateQuery t <;> simp [hm, hq]
    · rw [show (decide (rt ≤ now + 60)) = false by simpa using hle]
      rw [if_neg (by simp)]
      constructor
      · intro hmem
        cases hat : st.app_token with
        | none => rw [hat] at hmem; simp at hmem
        | some t => rw [hat] at hmem; simp at hmem
      · intro hno
        exfalso
        exact hno ⟨rt, rfl, by omega⟩

/-- The per-repo cache reports success without minting exactly when a cached
reset time exists strictly beyond `now + 1800`. -/
theorem repo_cache_margin_iff (env : InjectEnv) (st : TokensState)
    (now : Nat) (full_name : String) (repoProvided : Bool) (rn : List Char)
    (h1 : (splitSlash full_name.data).get? 1 = some rn)
    (h2 : (⟨rn⟩ : String) ∈ allowList)
    (h3 : "-feedstock".data.isSuffixOf rn = true) :
    ((inject_app_token_into_feedstock env st now full_name repoProvided).1 =
        .ok true ∧
      ∀ s, ExtCall.mintFeedstockToken s ∉
        (inject_app_token_into_feedstock env st now full_name
          repoProvided).2.2) ↔
      ∃ rt, List.lookup (⟨rn⟩ : String) st.feedstock_token_reset_times =
        some rt ∧ now + 1800 < rt := by
  by_cases h4 : (List.lookup (⟨rn⟩ : String)
      st.feedstock_token_reset_times).getD (now + 30 * 60) ≤ now + 30 * 60
  · have hm := inject_stale_mints env st now full_name repoProvided rn
      h1 h2 h3 h4
    constructor
    · rintro ⟨-, hno⟩
      exact absurd hm (hno _)
    · rintro ⟨rt, hrt, hgt⟩
      exfalso
      rw [hrt] at h4
      simp at h4
      omega
  · have hinj : inject_app_token_into_feedstock env st now full_name
        repoProvided = (.ok true, st, []) := by
      simp only [inject_app_token_into_feedstock, h1]
      rw [if_neg (by simp [h2]), if_neg (by simp [h3]), if_neg h4]
    rw [hinj]
    constructor
    · intro _
      cases hlk : List.lookup (⟨rn⟩ : String)
          st.feedstock_token_reset_times with
      | none =>
        exfalso
        rw [hlk] at h4
        simp at h4
      | some rt =>
        refine ⟨rt, rfl, ?_⟩
        rw [hlk] at h4
        simp at h4
        omega
    · intro _
      exact ⟨rfl, by simp⟩

/-- On a fresh app-wide cache entry (reset time strictly beyond `now + 60`),
`get_app_token_for_webservices_only` takes the cached branch: no external
call, no state change, and the result is the cached `APP_TOKEN` (asserting
if that is `None`). -/
theorem get_app_fresh (env : AppEnv) (st : TokensState) (now : Nat)
    (h : ∃ rt, st.app_token_reset_time = some rt ∧ now + 60 < rt) :
    get_app_token_for_webservices_only env st now =
      (match st.app_token with
       | some t => (Except.ok t, st, [])
       | none => (Except.error PyError.assertionError, st, [])) := by
  obtain ⟨rt, hrt, hgt⟩ := h
  unfold get_app_token_for_webservices_only
  rw [hrt]
  simp only
  rw [show (decide (rt ≤ now + 60)) = false by simp; omega]
  rw [if_neg (by simp)]

/-- On a fresh per-repo cache entry (and a gate-passing name),
`inject_app_token_into_feedstock` returns `True` with no external call and
no state change. -/
theorem inject_fresh (env : InjectEnv) (st : TokensState) (now : Nat)
    (full_name : String) (repoProvided : Bool) (rn : List Char)
    (h1 : (splitSlash full_name.data).get? 1 = some rn)
    (h2 : (⟨rn⟩ : String) ∈ allowList)
    (h3 : "-feedstock".data.isSuffixOf rn = true)
    (h4 : ¬ (List.lookup (⟨rn⟩ : String) st.feedstock_token_reset_times).getD
      (now + 30 * 60) ≤ now + 30 * 60) :
    inject_app_token_into_feedstock env st now full_name repoProvided =
      (.ok true, st, []) := by
  simp only [inject_app_token_into_feedstock, h1]
  rw [if_neg (by simp [h2]), if_neg (by simp [h3]), if_neg h4]

/-- Claim C2 (confirmed): `get_app_token_for_webservices_only` returns the
cached token without minting if and only if a cached reset time exists
strictly beyond `now + 60` seconds (tokens.py lines 41-43) — on a fresh
entry it makes no external call, leaves the state unchanged and returns the
cached `APP_TOKEN`; on a stale or absent entry it re-mints; and a token
returned without minting is the cached one under a fresh entry.  Likewise,
on an allow-listed repository, `inject_app_token_into_feedstock` returns a
cached success with no external call and no state change if and only if a
cached reset time for that repository exists strictly beyond `now + 1800`
seconds (lines 185-187); otherwise it re-mints. -/
theorem c2_cache_margins (appEnv : AppEnv) (env : InjectEnv)
    (st : TokensState) (now : Nat) (full_name : String) (repoProvided : Bool)
    (rn : List Char)
    (h1 : (splitSlash full_name.data).get? 1 = some rn)
    (h2 : (⟨rn⟩ : String) ∈ allowList)
    (h3 : "-feedstock".data.isSuffixOf rn = true) :
    ((∃ rt, st.app_token_reset_time = some rt ∧ now + 60 < rt) →
      (get_app_token_for_webservices_only appEnv st now).2.2 = [] ∧
      (get_app_token_for_webservices_only appEnv st now).2.1 = st ∧
      ∀ t, st.app_token = some t →
        (get_app_token_for_webservices_only appEnv st now).1 = .ok t) ∧
    (¬ (∃ rt, st.app_token_reset_time = some rt ∧ now + 60 < rt) →
      ExtCall.mintWebToken ∈
        (get_app_token_for_webservices_only appEnv st now).2.2) ∧
    (∀ t, (get_app_token_for_webservices_only appEnv st now).1 = .ok t →
      ExtCall.mintWebToken ∉
        (get_app_token_for_webservices_only appEnv st now).2.2 →
      st.app_token = some t ∧
        ∃ rt, st.app_token_reset_time = some rt ∧ now + 60 < rt) ∧
    ((∃ rt, List.lookup (⟨rn⟩ : String) st.feedstock_token_reset_times =
        some rt ∧ now + 1800 < rt) →
      inject_app_token_into_feedstock env st now full_name repoProvided =
        (.ok true, st, [])) ∧
    (¬ (∃ rt, List.lookup (⟨rn⟩ : String) st.feedstock_token_reset_times =
        some rt ∧ now + 1800 < rt) →
      ExtCall.mintFeedstockToken (⟨rn⟩ : String) ∈
        (inject_app_token_into_feedstock env st now full_name
          repoProvided).2.2) ∧
    (((inject_app_token_into_feedstock env st now full_name repoProvided).1 =
        .ok true ∧
      ∀ s, ExtCall.mintFeedstockToken s ∉
        (inject_app_token_into_feedstock env st now full_name
          repoProvided).2.2) →
      ∃ rt, List.lookup (⟨rn⟩ : String) st.feedstock_token_reset_times =
        some rt ∧ now + 1800 < rt) := by
  refine ⟨?_, ?_, ?_, ?_, ?_, ?_⟩
  · intro hfresh
    rw [get_app_fresh appEnv st now hfresh]
    cases hat : st.app_token with
    | none => exact ⟨rfl, rfl, fun t ht => by cases ht⟩
    | some t' =>
      refine ⟨rfl, rfl, fun t ht => ?_⟩
      injection ht with ht
      subst ht
      rfl
  · exact fun hno => (app_cache_margin_iff appEnv st now).mpr hno
  · intro t hok hno
    by_cases hfresh : ∃ rt, st.app_token_reset_time = some rt ∧ now + 60 < rt
    · rw [get_app_fresh appEnv st now hfresh] at hok
      cases hat : st.app_token with
      | none => rw [hat] at hok; cases hok
      | some t' =>
        rw [hat] at hok
        simp only at hok
        injection hok with hok
        subst hok
        exact ⟨rfl, hfresh⟩
    · exact absurd ((app_cache_margin_iff appEnv st now).mpr hfresh) hno
  · rintro ⟨rt, hrt, hgt⟩
    refine inject_fresh env st now full_name repoProvided rn h1 h2 h3 ?_
    rw [hrt]
    simp
    omega
  · intro hno
    refine inject_stale_mints env st now full_name repoProvided rn h1 h2 h3 ?_
    cases hlk : List.lookup (⟨rn⟩ : String) st.feedstock_token_reset_times with
    | none => simp
    | some rt =>
      have : ¬ now + 1800 < rt := fun hgt => hno ⟨rt, hlk, hgt⟩
      simp
      omega
  · exact fun hp =>
      (repo_cache_margin_iff env st now full_name repoProvided rn
        h1 h2 h3).mp hp

/-- Witness for C2 at `"conda-forge/conda-forge-pinning-feedstock"`. -/
theorem c2_cache_margins_witness :
    ((∃ rt, stEmpty.app_token_reset_time = some rt ∧ 1000 + 60 < rt) →
      (get_app_token_for_webservices_only appEnvGood stEmpty 1000).2.2 = [] ∧
      (get_app_token_for_webservices_only appEnvGood stEmpty 1000).2.1 =
        stEmpty ∧
      ∀ t, stEmpty.app_token = some t →
        (get_app_token_for_webservices_only appEnvGood stEmpty 1000).1 =
          .ok t) ∧
    (¬ (∃ rt, stEmpty.app_token_reset_time = some rt ∧ 1000 + 60 < rt) →
      ExtCall.mintWebToken ∈
        (get_app_token_for_webservices_only appEnvGood stEmpty 1000).2.2) ∧
    (∀ t, (get_app_token_for_webservices_only appEnvGood stEmpty 1000).1 =
        .ok t →
      ExtCall.mintWebToken ∉
        (get_app_token_for_webservices_only appEnvGood stEmpty 1000).2.2 →
      stEmpty.app_token = some t ∧
        ∃ rt, stEmpty.app_token_reset_time = some rt ∧ 1000 + 60 < rt) ∧
    ((∃ rt, List.lookup (⟨"conda-forge-pinning-feedstock".data⟩ : String)
        stEmpty.feedstock_token_reset_times = some rt ∧ 1000 + 1800 < rt) →
      inject_app_token_into_feedstock injEnvGood stEmpty 1000
        "conda-forge/conda-forge-pinning-feedstock" false =
        (.ok true, stEmpty, [])) ∧
    (¬ (∃ rt, List.lookup (⟨"conda-forge-pinning-feedstock".data⟩ : String)
        stEmpty.feedstock_token_reset_times = some rt ∧ 1000 + 1800 < rt) →
      ExtCall.mintFeedstockToken
          (⟨"conda-forge-pinning-feedstock".data⟩ : String) ∈
        (inject_app_token_into_feedstock injEnvGood stEmpty 1000
          "conda-forge/conda-forge-pinning-feedstock" false).2.2) ∧
    (((inject_app_token_into_feedstock injEnvGood stEmpty 1000
        "conda-forge/conda-forge-pinning-feedstock" false).1 = .ok true ∧
      ∀ s, ExtCall.mintFeedstockToken s ∉
        (inject_app_token_into_feedstock injEnvGood stEmpty 1000
          "conda-forge/conda-forge-pinning-feedstock" false).2.2) →
      ∃ rt, List.lookup (⟨"conda-forge-pinning-feedstock".data⟩ : String)
        stEmpty.feedstock_token_reset_times = some rt ∧ 1000 + 1800 < rt) :=
  c2_cache_margins appEnvGood injEnvGood stEmpty 1000
    "conda-forge/conda-forge-pinning-feedstock" false
    "conda-forge-pinning-feedstock".data rfl (by decide) (by decide)

/-! ## Claim C6 -/

/-- The scoped mint's external trace consists only of access-token requests
(no secret writes, no repo lookups). -/
theorem feedstock_trace_shape (env : FeedstockMintEnv) (raw : List Nat)
    (repo : String) (x : ExtCall)
    (hm : x ∈ (generate_app_token_for_feedstock env raw repo).2) :
    ∃ req, x = ExtCall.accessTokenRequest req := by
  rw [generate_app_token_for_feedstock_trace] at hm
  unfold feedstock_mint_body at hm
  split at hm
  · simp at hm
  · split at hm
    · simp at hm
    · split at hm
      · simp at hm
      · split at hm
        · simp at hm
        · simp only [ne_eq] at hm
          split at hm <;> [skip; split at hm <;> [skip; split at hm <;>
            [skip; split at hm <;> [skip; skip]]]] <;>
            (simp at hm; exact ⟨_, hm⟩)

/-- `get_app_token_for_webservices_only` never touches the per-repo cache. -/
theorem get_app_feedstock_unchanged (env : AppEnv) (st : TokensState)
    (now : Nat) :
    (get_app_token_for_webservices_only env st now).2.1.feedstock_token_reset_times
      = st.feedstock_token_reset_times := by
  unfold get_app_token_for_webservices_only
  cases hrt : st.app_token_reset_time with
  | none =>
    simp only
    cases hm : generate_app_token_for_webservices_only env.mintEnv
        env.raw_pem with
    | none => simp [hm]
    | some t => cases hq : env.rateQuery t <;> simp [hm, hq]
  | some rt =>
    simp only
    by_cases hle : rt ≤ now + 60
    · rw [show (decide (rt ≤ now + 60)) = true by simpa using hle]
      cases hm : generate_app_token_for_webservices_only env.mintEnv
          env.raw_pem with
      | none => simp [hm]
      | some t => cases hq : env.rateQuery t <;> simp [hm, hq]
    · rw [show (decide (rt ≤ now + 60)) = false by simpa using hle]
      rw [if_neg (by simp)]
      cases st.app_token <;> simp

/-- The app-wide token path's external trace consists only of the app-wide
mint and rate-limit queries. -/
theorem get_app_trace_shape (env : AppEnv) (st : TokensState) (now : Nat)
    (x : ExtCall)
    (hm : x ∈ (get_app_token_for_webservices_only env st now).2.2) :
    x = ExtCall.mintWebToken ∨ ∃ t, x = ExtCall.rateQuery t := by
  unfold get_app_token_for_webservices_only at hm
  cases hrt : st.app_token_reset_time with
  | none =>
    rw [hrt] at hm
    simp only at hm
    cases hg : generate_app_token_for_webservices_only env.mintEnv
        env.raw_pem with
    | none =>
      simp only [hg] at hm
      simp at hm
      exact Or.inl hm
    | some t =>
      simp only [hg] at hm
      cases hq : env.rateQuery t <;> simp only [hq] at hm <;> simp at hm <;>
        rcases hm with h | h
      · exact Or.inl h
      · exact Or.inr ⟨_, h⟩
      · exact Or.inl h
      · exact Or.inr ⟨_, h⟩
  | some rt =>
    rw [hrt] at hm
    simp only at hm
    by_cases hle : rt ≤ now + 60
    · rw [show (decide (rt ≤ now + 60)) = true by simpa using hle] at hm
      cases hg : generate_app_token_for_webservices_only env.mintEnv
          env.raw_pem with
      | none =>
        simp only [hg] at hm
        simp at hm
        exact Or.inl hm
      | some t =>
        simp only [hg] at hm
        cases hq : env.rateQuery t <;> simp only [hq] at hm <;> simp at hm <;>
          rcases hm with h | h
        · exact Or.inl h
        · exact Or.inr ⟨_, h⟩
        · exact Or.inl h
        · exact Or.inr ⟨_, h⟩
    · rw [show (decide (rt ≤ now + 60)) = false by simpa using hle] at hm
      rw [if_neg (by simp)] at hm
      cases hat : st.app_token <;> simp only [hat] at hm <;> simp at hm

/-- Claim C6 (confirmed): on the refresh path of
`inject_app_token_into_feedstock` (gate passed and per-repo cache stale):
if the scoped mint fails the function returns `False` with the state
untouched; if the secret write fails the failure is caught, the function
returns `False`, and the per-repo cache entry is unmodified; and the
per-repo cache is updated only on the path returning `True` (tokens.py
lines 187-226). -/
theorem c6_refresh_failure_paths (env : InjectEnv) (st : TokensState) (now : Nat)
    (full_name : String) (repoProvided : Bool) (rn : List Char)
    (h1 : (splitSlash full_name.data).get? 1 = some rn)
    (h2 : (⟨rn⟩ : String) ∈ allowList)
    (h3 : "-feedstock".data.isSuffixOf rn = true)
    (h4 : (List.lookup (⟨rn⟩ : String) st.feedstock_token_reset_times).getD
      (now + 30 * 60) ≤ now + 30 * 60) :
    ((generate_app_token_for_feedstock env.fsMintEnv env.appEnv.raw_pem
        (⟨rn⟩ : String)).1 = none →
      (inject_app_token_into_feedstock env st now full_name repoProvided).1 =
        .ok false ∧
      (inject_app_token_into_feedstock env st now full_name repoProvided).2.1 =
        st) ∧
    (env.createSecretFails = true →
      (∃ nm v, ExtCall.createSecret full_name nm v ∈
        (inject_app_token_into_feedstock env st now full_name
          repoProvided).2.2) →
      (inject_app_token_into_feedstock env st now full_name repoProvided).1 =
        .ok false ∧
      (inject_app_token_into_feedstock env st now full_name
        repoProvided).2.1.feedstock_token_reset_times =
        st.feedstock_token_reset_times) ∧
    ((inject_app_token_into_feedstock env st now full_name
        repoProvided).2.1.feedstock_token_reset_times ≠
        st.feedstock_token_reset_times →
      (inject_app_token_into_feedstock env st now full_name repoProvided).1 =
        .ok true) := by
  simp only [inject_app_token_into_feedstock, h1]
  rw [if_neg (by simp [h2]), if_neg (by simp [h3]), if_pos h4]
  cases hg : generate_app_token_for_feedstock env.fsMintEnv env.appEnv.raw_pem
      (⟨rn⟩ : String) with
  | mk mt mcalls =>
    cases mt with
    | none =>
      refine ⟨fun _ => ⟨rfl, rfl⟩, ?_, fun hne => absurd rfl hne⟩
      rintro hsf ⟨nm, v, hmem⟩
      exfalso
      simp at hmem
      obtain ⟨req, hreq⟩ := feedstock_trace_shape env.fsMintEnv
        env.appEnv.raw_pem (⟨rn⟩ : String) _ (by rw [hg]; exact hmem)
      exact absurd hreq (by simp)
    | some tok =>
      simp only
      cases repoProvided with
      | true =>
        rw [if_pos (show (true : Bool) = true from rfl)]
        simp only
        cases hsf : env.createSecretFails with
        | true =>
          rw [if_pos (show (true : Bool) = true from rfl)]
          exact ⟨fun hnone => by simp at hnone,
            fun _ _ => ⟨rfl, rfl⟩,
            fun hne => absurd rfl hne⟩
        | false =>
          rw [if_neg (show ¬ (false : Bool) = true by simp)]
          cases hq : env.appEnv.rateQuery tok with
          | none =>
            exact ⟨fun hnone => by simp at hnone,
              fun hsf' _ => by simp at hsf',
              fun hne => absurd rfl hne⟩
          | some rt2 =>
            exact ⟨fun hnone => by simp at hnone,
              fun hsf' _ => by simp at hsf',
              fun _ => rfl⟩
      | false =>
        rw [if_neg (show ¬ (false : Bool) = true by simp)]
        cases hga : get_app_token_for_webservices_only env.appEnv st now with
        | mk r rest =>
          obtain ⟨st1, c1⟩ := rest
          have hfu : st1.feedstock_token_reset_times =
              st.feedstock_token_reset_times := by
            have := get_app_feedstock_unchanged env.appEnv st now
            rw [hga] at this
            exact this
          cases r with
          | error e =>
            simp only
            refine ⟨fun hnone => by simp at hnone, ?_,
              fun hne => absurd hfu hne⟩
            rintro hsf ⟨nm, v, hmem⟩
            exfalso
            simp only [List.cons_append, List.append_assoc, List.mem_cons,
              List.mem_append, List.mem_singleton] at hmem
            rcases hmem with h | h | h
            · simp at h
            · obtain ⟨req, hreq⟩ := feedstock_trace_shape env.fsMintEnv
                env.appEnv.raw_pem (⟨rn⟩ : String) _ (by rw [hg]; exact h)
              exact absurd hreq (by simp)
            · rcases get_app_trace_shape env.appEnv st now _
                (by rw [hga]; exact h) with h2 | ⟨t, h2⟩ <;> simp at h2
          | ok u =>
            simp only
            cases hgr : env.getRepoFails with
            | true =>
              rw [if_pos (show (true : Bool) = true from rfl)]
              refine ⟨fun hnone => by simp at hnone, ?_,
                fun hne => absurd hfu hne⟩
              rintro hsf ⟨nm, v, hmem⟩
              exfalso
              simp only [List.cons_append, List.append_assoc, List.mem_cons,
                List.mem_append, List.mem_singleton] at hmem
              rcases hmem with h | h | h | h
              · simp at h
              · obtain ⟨req, hreq⟩ := feedstock_trace_shape env.fsMintEnv
                  env.appEnv.raw_pem (⟨rn⟩ : String) _ (by rw [hg]; exact h)
                exact absurd hreq (by simp)
              · rcases get_app_trace_shape env.appEnv st now _
                  (by rw [hga]; exact h) with h2 | ⟨t, h2⟩ <;> simp at h2
              · simp at h
            | false =>
              rw [if_neg (show ¬ (false : Bool) = true by simp)]
              simp only
              cases hsf : env.createSecretFails with
              | true =>
                rw [if_pos (show (true : Bool) = true from rfl)]
                exact ⟨fun hnone => by simp at hnone,
                  fun _ _ => ⟨rfl, hfu⟩,
                  fun hne => absurd hfu hne⟩
              | false =>
                rw [if_neg (show ¬ (false : Bool) = true by simp)]
                cases hq : env.appEnv.rateQuery tok with
                | none =>
                  exact ⟨fun hnone => by simp at hnone,
                    fun hsf' _ => by simp at hsf',
                    fun hne => absurd hfu hne⟩
                | some rt2 =>
                  exact ⟨fun hnone => by simp at hnone,
                    fun hsf' _ => by simp at hsf',
                    fun _ => rfl⟩

/-- Witness for C6 at `"conda-forge/conda-forge-pinning-feedstock"` with the
secret-write-failing environment and empty (hence stale) cache. -/
theorem c6_refresh_failure_paths_witness :
    ((generate_app_token_for_feedstock injEnvSecretFail.fsMintEnv
        injEnvSecretFail.appEnv.raw_pem
        (⟨"conda-forge-pinning-feedstock".data⟩ : String)).1 = none →
      (inject_app_token_into_feedstock injEnvSecretFail stEmpty 1000
        "conda-forge/conda-forge-pinning-feedstock" true).1 = .ok false ∧
      (inject_app_token_into_feedstock injEnvSecretFail stEmpty 1000
        "conda-forge/conda-forge-pinning-feedstock" true).2.1 = stEmpty) ∧
    (injEnvSecretFail.createSecretFails = true →
      (∃ nm v, ExtCall.createSecret "conda-forge/conda-forge-pinning-feedstock"
          nm v ∈
        (inject_app_token_into_feedstock injEnvSecretFail stEmpty 1000
          "conda-forge/conda-forge-pinning-feedstock" true).2.2) →
      (inject_app_token_into_feedstock injEnvSecretFail stEmpty 1000
        "conda-forge/conda-forge-pinning-feedstock" true).1 = .ok false ∧
      (inject_app_token_into_feedstock injEnvSecretFail stEmpty 1000
        "conda-forge/conda-forge-pinning-feedstock"
        true).2.1.feedstock_token_reset_times =
        stEmpty.feedstock_token_reset_times) ∧
    ((inject_app_token_into_feedstock injEnvSecretFail stEmpty 1000
        "conda-forge/conda-forge-pinning-feedstock"
        true).2.1.feedstock_token_reset_times ≠
        stEmpty.feedstock_token_reset_times →
      (inject_app_token_into_feedstock injEnvSecretFail stEmpty 1000
        "conda-forge/conda-forge-pinning-feedstock" true).1 = .ok true) :=
  c6_refresh_failure_paths injEnvSecretFail stEmpty 1000
    "conda-forge/conda-forge-pinning-feedstock" true
    "conda-forge-pinning-feedstock".data rfl (by decide) (by decide)
    (by decide)
